import Mathlib

/-!
Shallow embedding of the EIN chart-widget data pipeline (`src/data-reader.js`):
CSV parsing with quoting rules, date-based windowing and deduplication,
axis-scale computation, and the custom tooltip positioner.

Modelling conventions:
* JS numbers are modelled as `ℚ`; `Math.ceil`/`Math.max` become `⌈·⌉`/`max`.
  Possibly-`NaN`/`undefined` pixel coordinates are `Option ℚ`, with `NaN`
  propagation modelled by `Option` propagation.
* JS `Date` values are modelled at calendar-day granularity by `SimpleDate`
  (year, 0-based month index, day-of-month), ordered lexicographically.
  `new Date(string)` is modelled for the `M/D/YYYY` format the data uses
  (4-digit years); per the design notes, locale-dependent parsing beyond
  this fixed interpretation is environment-dependent and not contractual.
  `new Date(0)` is the epoch day 1970-01-01.
* The aliasing in `processDataForChart` (the running `minDate` variable ends
  up referencing the `date` object of the last row that attained the running
  maximum, so the in-place `setMonth`/`setDate` mutation rewrites that row's
  date) is modelled explicitly by tracking the index of the last update.
-/

/- Batteries marks the rational-arithmetic primitives `[irreducible]`, which
blocks kernel evaluation inside `decide`; restore the default so closed
pipeline computations reduce. -/
attribute [local semireducible] Rat.add Rat.mul Rat.inv Rat.sub Rat.ofScientific

/-- A JS `Date` at calendar-day granularity: year, 0-based month, day. -/
structure SimpleDate where
  y : Int
  m : Int
  d : Int
deriving DecidableEq, Repr

/-- Lexicographic order on dates, matching comparison of JS time values for
dates at day granularity. -/
def dateLe (a b : SimpleDate) : Prop :=
  a.y < b.y ∨ (a.y = b.y ∧ (a.m < b.m ∨ (a.m = b.m ∧ a.d ≤ b.d)))

/-- Strict version of `dateLe`. -/
def dateLt (a b : SimpleDate) : Prop :=
  a.y < b.y ∨ (a.y = b.y ∧ (a.m < b.m ∨ (a.m = b.m ∧ a.d < b.d)))

instance (a b : SimpleDate) : Decidable (dateLe a b) := by
  unfold dateLe; infer_instance

instance (a b : SimpleDate) : Decidable (dateLt a b) := by
  unfold dateLt; infer_instance

/-- Proleptic Gregorian leap-year rule used by JS `Date`. -/
def isLeap (y : Int) : Bool :=
  y % 4 == 0 && (y % 100 != 0 || y % 400 == 0)

/-- Number of days of the 0-based month `m` of year `y`. -/
def daysInMonth (y : Int) (m : Int) : Int :=
  if m = 1 then (if isLeap y then 29 else 28)
  else if m = 3 ∨ m = 5 ∨ m = 8 ∨ m = 10 then 30
  else 31

/-- `new Date(0)` at day granularity. -/
def epochDate : SimpleDate := ⟨1970, 0, 1⟩

/-- JS `String.prototype.trim` on a character list. -/
def trimChars (l : List Char) : List Char :=
  ((l.dropWhile Char.isWhitespace).reverse.dropWhile Char.isWhitespace).reverse

/-- JS `String.prototype.trim`. -/
def jsTrim (s : String) : String := String.mk (trimChars s.data)

/-- Value of a digit sequence read most-significant first. -/
def digitsToNat (l : List Char) : Nat :=
  l.foldl (fun acc c => 10 * acc + (c.toNat - '0'.toNat)) 0

/-- JS `String.prototype.split` with a one-character separator, on
character lists (every separator the source uses is a single character). -/
def splitChar (sep : Char) : List Char → List (List Char)
  | [] => [[]]
  | a :: rest =>
    let r := splitChar sep rest
    if a = sep then [] :: r
    else
      match r with
      | [] => [[a]]
      | h :: t => (a :: h) :: t

/-- `s.split(sep)` for a one-character separator. -/
def jsSplit (s : String) (sep : Char) : List String :=
  (splitChar sep s.data).map String.mk

/-- Decimal reading of a string of digits, `none` on anything else (the
model of the numeric date components accepted by `new Date`). -/
def decDigits (s : String) : Option Nat :=
  if s.data ≠ [] ∧ s.data.all Char.isDigit then some (digitsToNat s.data) else none

/-- `header.trim().replace(/"/g, '')` from `parseCSV`: trim, then delete every
double-quote character. -/
def headerCell (s : String) : String :=
  String.mk ((jsTrim s).data.filter (fun c => c ≠ '"'))

/-- The quote-aware field scanner of `parseCSVLine`, one step per character:
a doubled quote inside a quoted span is a literal quote, an unmatched quote
toggles the in-quotes state, a comma outside quotes ends the current field,
and every finished field is trimmed. -/
def parseCSVLineGo : Bool → List Char → List Char → List String
  | _, cur, [] => [String.mk (trimChars cur)]
  | true, cur, '"' :: '"' :: rest => parseCSVLineGo true (cur ++ ['"']) rest
  | inQ, cur, '"' :: rest => parseCSVLineGo (!inQ) cur rest
  | false, cur, ',' :: rest => String.mk (trimChars cur) :: parseCSVLineGo false [] rest
  | true, cur, ',' :: rest => parseCSVLineGo true (cur ++ [',']) rest
  | inQ, cur, c :: rest => parseCSVLineGo inQ (cur ++ [c]) rest

/-- `parseCSVLine(line)`: split a single CSV line into trimmed field values. -/
def parseCSVLine (line : String) : List String :=
  parseCSVLineGo false [] line.data

/-- A parsed CSV row: column name/value pairs in assignment order.  A JS
object is modelled by lookup of the last assignment for a key. -/
abbrev RawRow := List (String × String)

/-- JS property read `row[k]`: the value of the last assignment to key `k`,
or `none` (`undefined`) when the key is absent. -/
def getField (r : RawRow) (k : String) : Option String :=
  (r.reverse.find? (fun p => p.1 == k)).map (fun p => p.2)

/-- The string actually consumed by code reading `row[k]` where `undefined`
behaves like an empty string (`parseFloat`/`new Date` both fail on it). -/
def fieldStr (r : RawRow) (k : String) : String := (getField r k).getD ""

/-- JS truthiness of `row[k]`: the key is present with a non-empty value. -/
def rowTruthy (r : RawRow) (k : String) : Bool := fieldStr r k != ""

/-- Row construction of `parseCSV`: `row[header] = values[index] || ''` for
each header in order (duplicate headers: last assignment wins, per
`getField`). -/
def mkRow (headers values : List String) : RawRow :=
  headers.enum.map (fun p => (p.2, values.getD p.1 ""))

/-- `parseCSV(csvText)`: split into non-blank lines, fail when fewer than 2,
take headers from the first line (split on every comma, trimmed,
quote-stripped), and build one row per remaining line, kept only when both
`Date` and `Estimate` are truthy. -/
def parseCSV (csvText : String) : Except String (List RawRow) :=
  let lines := (jsSplit csvText '\n').filter (fun l => jsTrim l != "")
  if lines.length < 2 then
    .error "CSV data appears to be empty or invalid"
  else
    let headers := (jsSplit (lines.headD "") ',').map headerCell
    .ok ((lines.drop 1).filterMap (fun l =>
      let line := jsTrim l
      if line = "" then none
      else
        let row := mkRow headers (parseCSVLine line)
        if rowTruthy row "Date" && rowTruthy row "Estimate" then some row else none))

/-- `parseFloat(s)` modelled over `ℚ`: skip leading whitespace, optional
sign, then the longest prefix of the form `digits[.digits][e[sign]digits]`
with at least one digit before the exponent; `none` models `NaN`.
(The `Infinity` literal and float rounding are outside the model's scope.) -/
def parseFloatJS (s : String) : Option ℚ :=
  let cs := s.data.dropWhile Char.isWhitespace
  let (neg, cs) : Bool × List Char :=
    match cs with
    | '-' :: rest => (true, rest)
    | '+' :: rest => (false, rest)
    | _ => (false, cs)
  let intPart := cs.takeWhile Char.isDigit
  let rest1 := cs.dropWhile Char.isDigit
  let (fracPart, rest2) : List Char × List Char :=
    match rest1 with
    | '.' :: r => (r.takeWhile Char.isDigit, r.dropWhile Char.isDigit)
    | _ => ([], rest1)
  if intPart = [] ∧ fracPart = [] then none
  else
    let mantissa : ℚ :=
      (digitsToNat intPart : ℚ) + (digitsToNat fracPart : ℚ) / ((10 : ℚ) ^ fracPart.length)
    let expo : Int :=
      match rest2 with
      | 'e' :: '-' :: r => if (r.takeWhile Char.isDigit) = [] then 0 else -(digitsToNat (r.takeWhile Char.isDigit) : Int)
      | 'e' :: '+' :: r => if (r.takeWhile Char.isDigit) = [] then 0 else (digitsToNat (r.takeWhile Char.isDigit) : Int)
      | 'e' :: r => if (r.takeWhile Char.isDigit) = [] then 0 else (digitsToNat (r.takeWhile Char.isDigit) : Int)
      | 'E' :: '-' :: r => if (r.takeWhile Char.isDigit) = [] then 0 else -(digitsToNat (r.takeWhile Char.isDigit) : Int)
      | 'E' :: '+' :: r => if (r.takeWhile Char.isDigit) = [] then 0 else (digitsToNat (r.takeWhile Char.isDigit) : Int)
      | 'E' :: r => if (r.takeWhile Char.isDigit) = [] then 0 else (digitsToNat (r.takeWhile Char.isDigit) : Int)
      | _ => 0
    some ((if neg then -1 else 1) * mantissa * (10 : ℚ) ^ expo)

/-- `parseFloat(s) || 0`: `NaN` (and `0` itself) collapse to `0`. -/
def numOr0 (s : String) : ℚ := (parseFloatJS s).getD 0

/-- `new Date(s)` at day granularity for the `M/D/YYYY` data format: three
`/`-separated decimal components, month 1–12, 4-digit (or longer) year, day
within the month; anything else is an invalid date (`none`). -/
def parseDateJS (s : String) : Option SimpleDate :=
  match jsSplit (jsTrim s) '/' with
  | [ms, ds, ys] =>
    match decDigits ms, decDigits ds, decDigits ys with
    | some mo, some dy, some yr =>
      if 1 ≤ mo ∧ mo ≤ 12 ∧ 1000 ≤ yr ∧ 1 ≤ dy ∧ (dy : Int) ≤ daysInMonth yr ((mo : Int) - 1) then
        some ⟨(yr : Int), (mo : Int) - 1, (dy : Int)⟩
      else none
    | _, _, _ => none
  | _ => none

/-- One element of `processedData`: the parsed date (or the invalid-date
sentinel `none`) plus the three numeric fields. -/
structure PItem where
  date : Option SimpleDate
  estimate : ℚ
  fifthPercentile : ℚ
  ninetyFifthPercentile : ℚ
deriving DecidableEq, Repr

/-- One element of the date-filtered series: as `PItem` but with a valid
date. -/
structure FItem where
  date : SimpleDate
  estimate : ℚ
  fifthPercentile : ℚ
  ninetyFifthPercentile : ℚ
deriving DecidableEq, Repr

/-- The `map` body of `processDataForChart`: parse the date and the three
numeric fields (`parseFloat(...) || 0`). -/
def mkPItem (r : RawRow) : PItem :=
  ⟨parseDateJS (fieldStr r "Date"),
   numOr0 (fieldStr r "Estimate"),
   numOr0 (fieldStr r "5th Percentile"),
   numOr0 (fieldStr r "95th Percentile")⟩

/-- The `filter`+`map` prefix of `processDataForChart`. -/
def processedData (rows : List RawRow) : List PItem :=
  (rows.filter (fun r => rowTruthy r "Date" && rowTruthy r "Estimate")).map mkPItem

/-- The running-`minDate` fold of `processDataForChart`: starting from
`new Date(0)`, each valid date `d` with `d >= minDate` replaces it.  The
second component records the index of the last row whose `date` object the
variable ends up referencing (`none` when no update ever fired), which is
the row later mutated in place by `setMonth`/`setDate`. -/
def latestStep (p : SimpleDate × Option Nat) (q : Nat × PItem) : SimpleDate × Option Nat :=
  match q.2.date with
  | some d => if dateLe p.1 d then (d, some q.1) else p
  | none => p

def latestAndIdx (items : List PItem) : SimpleDate × Option Nat :=
  items.enum.foldl latestStep (epochDate, none)

/-- The latest date tracked by the fold (clamped below by the epoch). -/
def latestDate (items : List PItem) : SimpleDate := (latestAndIdx items).1

/-- `minDate.setMonth(minDate.getMonth() - 2); minDate.setDate(1)` with JS
month/day normalization: months renormalize by `fdiv`/`emod` 12, and a
day-of-month exceeding the target month's length carries into the next
month before the day is reset to 1. -/
def jsWindowFloor (dt : SimpleDate) : SimpleDate :=
  let mi : Int := dt.m - 2
  let y1 : Int := dt.y + mi.fdiv 12
  let m1 : Int := mi.emod 12
  if dt.d > daysInMonth y1 m1 then
    (if m1 = 11 then ⟨y1 + 1, 0, 1⟩ else ⟨y1, m1 + 1, 1⟩)
  else ⟨y1, m1, 1⟩

/-- The retention-window floor computed by `processDataForChart`. -/
def windowFloorOf (items : List PItem) : SimpleDate := jsWindowFloor (latestDate items)

/-- The items as they stand after the in-place `setMonth`/`setDate` calls:
the row aliased by `minDate` (if any) has its date rewritten to the window
floor; every other row is untouched. -/
def mutatedItems (items : List PItem) : List PItem :=
  match (latestAndIdx items).2 with
  | none => items
  | some j =>
    match items.get? j with
    | some it => items.set j { it with date := some (windowFloorOf items) }
    | none => items

/-- `dateFilteredMinProcessedData` before sorting: drop invalid dates and
dates strictly before the floor (the comparison runs on the mutated items,
as in the source). -/
def dateFilteredMin (items : List PItem) : List FItem :=
  (mutatedItems items).filterMap (fun it =>
    match it.date with
    | some d =>
      if dateLe (windowFloorOf items) d then
        some ⟨d, it.estimate, it.fifthPercentile, it.ninetyFifthPercentile⟩
      else none
    | none => none)

/-- Stable insertion of one item into a date-sorted list: the new item goes
before the first element not strictly below it, so ties keep their original
relative order, as with JS's stable `Array.prototype.sort`. -/
def insertByDate (x : FItem) : List FItem → List FItem
  | [] => [x]
  | y :: ys => if dateLt y.date x.date then y :: insertByDate x ys else x :: y :: ys

/-- `.sort((a, b) => a.date.getTime() - b.date.getTime())`: stable ascending
sort by date. -/
def sortByDate (l : List FItem) : List FItem := l.foldr insertByDate []

/-- The `seenDate` deduplication loop: keep an item only when its calendar
day (`getDate()-getMonth()-getFullYear()` key, i.e. the whole `SimpleDate`)
has not been seen yet. -/
def dedupGo : List FItem → List SimpleDate → List FItem
  | [], _ => []
  | it :: rest, seen =>
    if it.date ∈ seen then dedupGo rest seen
    else it :: dedupGo rest (it.date :: seen)

/-- `uniqueData` of `processDataForChart`, starting from the raw rows. -/
def uniqueData (rows : List RawRow) : List FItem :=
  dedupGo (sortByDate (dateFilteredMin (processedData rows))) []

/-- The `monthNames` table. -/
def monthNames : List String :=
  ["JAN", "FEB", "MAR", "APR", "MAY", "JUN", "JUL", "AUG", "SEP", "OCT", "NOV", "DEC"]

/-- JS array read `monthNames[i]` where an out-of-range index yields
`undefined`, which stringifies to `"undefined"` in the label key. -/
def monthNameAt (i : Int) : String :=
  if i < 0 then "undefined" else monthNames.getD i.toNat "undefined"

/-- The label loop: push the month abbreviation on the first occurrence of a
`MONTH-YEAR` key, the empty string afterwards. -/
def buildLabelsGo : List FItem → List (String × Int) → List String
  | [], _ => []
  | it :: rest, seen =>
    let mn := monthNameAt it.date.m
    if (mn, it.date.y) ∈ seen then "" :: buildLabelsGo rest seen
    else mn :: buildLabelsGo rest ((mn, it.date.y) :: seen)

/-- The labels produced for a series. -/
def buildLabels (l : List FItem) : List String := buildLabelsGo l []

/-- `Math.ceil` on a JS number. -/
def qceil (q : ℚ) : ℚ := (⌈q⌉ : ℚ)

/-- The `this.maxSteps = Math.max(this.maxSteps, estimate, fifth, ninetyFifth)`
fold over the series. -/
def rawMaxFold (init : ℚ) (l : List FItem) : ℚ :=
  l.foldl (fun m it => max m (max it.estimate (max it.fifthPercentile it.ninetyFifthPercentile))) init

/-- `Math.ceil((Math.ceil(maxSteps) / 5) + 1)`. -/
def newStepSize (m : ℚ) : ℚ := qceil (qceil m / 5 + 1)

/-- `Math.ceil(maxSteps / stepSize) * stepSize`. -/
def newMaxSteps (m s : ℚ) : ℚ := qceil (m / s) * s

/-- The mutable fields of an `EINDataReader` instance touched by the
pipeline. -/
structure ReaderState where
  maxSteps : ℚ
  stepSize : ℚ
deriving DecidableEq, Repr

/-- The constructor's initial values `maxSteps = 0`, `stepSize = 1`. -/
def initState : ReaderState := ⟨0, 1⟩

/-- The data-dependent parts of the returned `chartData` object: the labels,
the three dataset arrays, and the attached `rawData` (which the source
overwrites with `uniqueData`). -/
structure ChartOut where
  labels : List String
  fifthPercentileData : List ℚ
  ninetyFifthPercentileData : List ℚ
  estimateData : List ℚ
  rawData : List FItem
deriving DecidableEq, Repr

/-- `processDataForChart(rawData)`: the full pipeline, returning the chart
data together with the updated instance state.  The single `forEach` of the
source builds the dataset arrays, the labels and the running maximum in one
pass with no cross-dependency; they are split here into independent folds
over the same `uniqueData`. -/
def processDataForChart (st : ReaderState) (rows : List RawRow) : ChartOut × ReaderState :=
  let u := uniqueData rows
  let m := rawMaxFold st.maxSteps u
  let s := newStepSize m
  (⟨buildLabels u,
    u.map (fun it => it.fifthPercentile),
    u.map (fun it => it.ninetyFifthPercentile),
    u.map (fun it => it.estimate),
    u⟩,
   ⟨newMaxSteps m s, s⟩)

/-- An active chart element as seen by the tooltip positioner: its dataset
index (possibly `undefined`) and its pixel coordinates, where `none` models
an `undefined` coordinate. -/
structure ChartElement where
  datasetIndex : Option Nat
  x : Option ℚ
  y : Option ℚ
deriving DecidableEq, Repr

/-- JS addition where an `undefined`/`NaN` operand poisons the result. -/
def jadd (a b : Option ℚ) : Option ℚ :=
  match a, b with
  | some a, some b => some (a + b)
  | _, _ => none

/-- JS division by a (nonzero, concrete) count, with `NaN` propagation. -/
def jdivq (a : Option ℚ) (b : ℚ) : Option ℚ := a.map (fun q => q / b)

/-- `el.datasetIndex !== undefined && chart.data.datasets[el.datasetIndex].label === lbl`
against the chart's dataset label list. -/
def elementHasLabel (labels : List String) (el : ChartElement) (lbl : String) : Bool :=
  match el.datasetIndex with
  | some i => labels.get? i == some lbl
  | none => false

/-- The dataset labels of the chart built by `processDataForChart`, in
dataset order. -/
def stdLabels : List String := ["5th Percentile", "95th Percentile", "Estimate"]

/-- The final fallback of the positioner: arithmetic mean of the `x` and of
the `y` coordinates of all active elements, shifted by the fixed bias. -/
def centroidAnchor (elements : List ChartElement) : Option ℚ × Option ℚ :=
  let n : ℚ := (elements.length : ℚ)
  (jadd (jdivq (elements.foldl (fun s el => jadd s el.x) (some 0)) n) (some 0),
   jadd (jdivq (elements.foldl (fun s el => jadd s el.y) (some 0)) n) (some (-10)))

/-- The percentile elements collected by the positioner, in element order. -/
def percentileElements (labels : List String) (elements : List ChartElement) : List ChartElement :=
  elements.filter (fun el =>
    elementHasLabel labels el "5th Percentile" || elementHasLabel labels el "95th Percentile")

/-- The branch of the positioner reached when no Estimate anchor applies:
two or more percentile elements give the first one's `x` and the vertical
midpoint of the first two; exactly one gives that element; none gives the
centroid of all active elements. -/
def einPercentileFallback (labels : List String) (elements : List ChartElement) : Option ℚ × Option ℚ :=
  match percentileElements labels elements with
  | p0 :: p1 :: _ => (jadd p0.x (some 0), jadd (jdivq (jadd p0.y p1.y) 2) (some (-10)))
  | [p0] => (jadd p0.x (some 0), jadd p0.y (some (-10)))
  | [] => centroidAnchor elements

/-- `Chart.Tooltip.positioners.einCustomPositioner(elements, eventPosition)`:
no active elements anchor the (defined) cursor; otherwise the first element
of the "Estimate" dataset anchors when its `x` is defined; otherwise the
percentile fallback applies.  Every returned point carries the fixed bias
`(+0, -10)`. -/
def einCustomPositioner (labels : List String) (elements : List ChartElement)
    (eventX eventY : ℚ) : Option ℚ × Option ℚ :=
  if elements.length = 0 then (some (eventX + 0), some (eventY + (-10)))
  else
    match elements.find? (fun el => elementHasLabel labels el "Estimate") with
    | some est =>
      if est.x.isSome then (jadd est.x (some 0), jadd est.y (some (-10)))
      else einPercentileFallback labels elements
    | none => einPercentileFallback labels elements

/-- The anchor-selection priority rule as the specification words it, for
comparison with `einCustomPositioner`: rule (2) anchors on an Estimate
element with resolved coordinates; rule (3) requires elements of *both*
percentile series and takes the vertical midpoint of the two series'
(first) elements, or anchors on a sole percentile element; rule (4) is the
centroid. -/
def selectAnchorSpec (labels : List String) (elements : List ChartElement)
    (eventX eventY : ℚ) : Option ℚ × Option ℚ :=
  if elements.length = 0 then (some (eventX + 0), some (eventY + (-10)))
  else
    match elements.find? (fun el =>
        elementHasLabel labels el "Estimate" && el.x.isSome && el.y.isSome) with
    | some est => (jadd est.x (some 0), jadd est.y (some (-10)))
    | none =>
      let low := elements.find? (fun el => elementHasLabel labels el "5th Percentile")
      let high := elements.find? (fun el => elementHasLabel labels el "95th Percentile")
      match low, high with
      | some l, some h =>
        match percentileElements labels elements with
        | p0 :: _ => (jadd p0.x (some 0), jadd (jdivq (jadd l.y h.y) 2) (some (-10)))
        | [] => centroidAnchor elements
      | _, _ =>
        match percentileElements labels elements with
        | [p] => (jadd p.x (some 0), jadd p.y (some (-10)))
        | _ => centroidAnchor elements

/-- The non-blank lines `parseCSV` works on. -/
def csvLines (csvText : String) : List String :=
  (jsSplit csvText '\n').filter (fun l => jsTrim l != "")

/-- The row kept (or not) for one data line, given the processed headers. -/
def rowOfLine (headers : List String) (l : String) : Option RawRow :=
  let row := mkRow headers (parseCSVLine (jsTrim l))
  if rowTruthy row "Date" && rowTruthy row "Estimate" then some row else none

/-- The claim-side raw maximum: the maximum over all estimate/lowBound/
highBound values of the series, `0` for an empty series. -/
def rawMaxSpec (l : List FItem) : ℚ :=
  ((l.map (fun it => max it.estimate (max it.fifthPercentile it.ninetyFifthPercentile))).max?).getD 0

/-- The window floor as the claim words it: subtract 2 calendar months from
the given date, then set the day-of-month to 1 (so the day never interacts
with the month arithmetic). -/
def specWindowFloor (dt : SimpleDate) : SimpleDate :=
  ⟨dt.y + (dt.m - 2).fdiv 12, (dt.m - 2).emod 12, 1⟩

/-- The label rule as the claim words it: a record's label is the month
abbreviation when no earlier record shares its (month, year) pair, the
empty string otherwise. -/
def specLabelsAux (prev : List FItem) : List FItem → List String
  | [] => []
  | it :: rest =>
    (if prev.any (fun p => p.date.m == it.date.m && p.date.y == it.date.y) then ""
     else monthNameAt it.date.m) :: specLabelsAux (prev ++ [it]) rest

theorem dropWhile_rdropWhile_dropWhile (p : Char → Bool) (l : List Char) :
    List.dropWhile p (List.rdropWhile p (List.dropWhile p l))
      = List.rdropWhile p (List.dropWhile p l) := by
  apply List.dropWhile_eq_self_iff.mpr
  intro hl
  have hpre := List.rdropWhile_prefix p (List.dropWhile p l)
  have hlt : 0 < (List.dropWhile p l).length := lt_of_lt_of_le hl hpre.length_le
  have h2 := List.dropWhile_get_zero_not p l hlt
  simp only [List.get_eq_getElem] at h2 ⊢
  rwa [hpre.getElem hl]

theorem trimChars_idem (l : List Char) : trimChars (trimChars l) = trimChars l := by
  show List.rdropWhile _ (List.dropWhile _ (List.rdropWhile _ (List.dropWhile _ l)))
    = List.rdropWhile _ (List.dropWhile _ l)
  rw [dropWhile_rdropWhile_dropWhile, List.rdropWhile_idempotent]

theorem jsTrim_mk_trimChars (cs : List Char) :
    jsTrim (String.mk (trimChars cs)) = String.mk (trimChars cs) := by
  show String.mk (trimChars (trimChars cs)) = _
  rw [trimChars_idem]

/-- Every field emitted by the scanner is the trim of some accumulated
character run. -/
theorem mem_parseCSVLineGo (inQ : Bool) (cur : List Char) (l : List Char) :
    ∀ s ∈ parseCSVLineGo inQ cur l, ∃ cs, s = String.mk (trimChars cs) := by
  induction inQ, cur, l using parseCSVLineGo.induct with
  | case1 x cur =>
    intro s hs
    simp only [parseCSVLineGo, List.mem_singleton] at hs
    exact ⟨cur, hs⟩
  | case2 cur rest ih =>
    intro s hs
    simp only [parseCSVLineGo] at hs
    exact ih s hs
  | case3 inQ cur rest hne ih =>
    intro s hs
    rw [show parseCSVLineGo inQ cur ('"' :: rest) = parseCSVLineGo (!inQ) cur rest by
      cases inQ with
      | false => simp only [parseCSVLineGo]
      | true =>
        cases rest with
        | nil => simp only [parseCSVLineGo]
        | cons c r =>
          by_cases hc : c = '"'
          · exact (hne r rfl (by rw [hc])).elim
          · simp only [parseCSVLineGo, hc]] at hs
    exact ih s hs
  | case4 cur rest ih =>
    intro s hs
    simp only [parseCSVLineGo, List.mem_cons] at hs
    rcases hs with hs | hs
    · exact ⟨cur, hs⟩
    · exact ih s hs
  | case5 cur rest ih =>
    intro s hs
    simp only [parseCSVLineGo] at hs
    exact ih s hs
  | case6 inQ cur c rest h1 h2 h3 h4 ih =>
    intro s hs
    rw [show parseCSVLineGo inQ cur (c :: rest) = parseCSVLineGo inQ (cur ++ [c]) rest by
      cases inQ with
      | false => simp only [parseCSVLineGo, h2 , fun h => h3 rfl h]
      | true => simp only [parseCSVLineGo, h2 , fun h => h4 rfl h]] at hs
    exact ih s hs

/-- C6: the quote-aware line scanner treats a comma inside a quoted span as
part of the current field rather than a separator, treats a doubled quote
inside a quoted span as a literal quote character, toggles the in-quotes
state on an unmatched quote (in either direction), and parses the quoted
value-position field in `1/15/2024,"5,000",7` as the single token `5,000`. -/
theorem parseCSVLine_quote_rules :
    (∀ (cur rest : List Char),
        parseCSVLineGo true cur (',' :: rest) = parseCSVLineGo true (cur ++ [',']) rest)
  ∧ (∀ (cur rest : List Char),
        parseCSVLineGo true cur ('"' :: '"' :: rest) = parseCSVLineGo true (cur ++ ['"']) rest)
  ∧ (∀ (cur rest : List Char),
        parseCSVLineGo false cur ('"' :: rest) = parseCSVLineGo true cur rest)
  ∧ (∀ (cur : List Char) (c : Char) (rest : List Char), c ≠ '"' →
        parseCSVLineGo true cur ('"' :: c :: rest) = parseCSVLineGo false cur (c :: rest))
  ∧ parseCSVLine "1/15/2024,\"5,000\",7" = ["1/15/2024", "5,000", "7"] := by
  refine ⟨fun cur rest => ?_, fun cur rest => ?_, fun cur rest => ?_,
    fun cur c rest hc => ?_, ?_⟩
  · simp only [parseCSVLineGo]
  · simp only [parseCSVLineGo]
  · simp only [parseCSVLineGo, Bool.not_false]
  · rw [parseCSVLineGo.eq_def]
    split
    all_goals try simp_all
    all_goals (rename_i hq heq hcm; exact absurd heq.1.symm hq)
  · rfl

/-- Instantiation of `parseCSVLine_quote_rules` at concrete scanner states. -/
theorem parseCSVLine_quote_rules_witness :
    parseCSVLineGo true ['a'] (',' :: ['b']) = parseCSVLineGo true ['a', ','] ['b']
  ∧ parseCSVLineGo true ['a'] ('"' :: '"' :: ['b']) = parseCSVLineGo true ['a', '"'] ['b']
  ∧ parseCSVLineGo false ['a'] ('"' :: ['b']) = parseCSVLineGo true ['a'] ['b']
  ∧ parseCSVLineGo true ['a'] ('"' :: 'b' :: []) = parseCSVLineGo false ['a'] ('b' :: []) :=
  ⟨parseCSVLine_quote_rules.1 ['a'] ['b'],
   parseCSVLine_quote_rules.2.1 ['a'] ['b'],
   parseCSVLine_quote_rules.2.2.1 ['a'] ['b'],
   parseCSVLine_quote_rules.2.2.2.1 ['a'] 'b' [] (by decide)⟩

/-- C7: with fewer than 2 non-blank lines `parseCSV` fails with the parse
error; otherwise it succeeds and returns exactly one row per data line whose
`Date` and `Estimate` values are non-empty, and a row always pairs the i-th
header with the i-th field value, the empty string when the line has no
such value. -/
theorem parseCSV_parse_error_and_rows (csvText : String) :
    ((csvLines csvText).length < 2 →
        parseCSV csvText = .error "CSV data appears to be empty or invalid")
  ∧ (2 ≤ (csvLines csvText).length →
        parseCSV csvText = .ok (((csvLines csvText).drop 1).filterMap
          (rowOfLine ((jsSplit ((csvLines csvText).headD "") ',').map headerCell))))
  ∧ (∀ (headers values : List String) (i : Nat), i < headers.length →
        (mkRow headers values)[i]? = some (headers.getD i "", values.getD i "")) := by
  refine ⟨fun h => ?_, fun h => ?_, fun headers values i hi => ?_⟩
  · simp only [parseCSV, csvLines] at h ⊢
    rw [if_pos h]
  · have h2 : ¬((csvLines csvText).length < 2) := not_lt.mpr h
    simp only [parseCSV, csvLines] at h2 ⊢
    rw [if_neg h2]
    refine congrArg Except.ok (List.filterMap_congr fun l hl => ?_)
    have hmem : l ∈ (jsSplit csvText '\n').filter (fun l => jsTrim l != "") :=
      List.mem_of_mem_drop hl
    have hne : ¬(jsTrim l = "") := by
      simpa using (List.mem_filter.mp hmem).2
    simp only [rowOfLine, if_neg hne]
  · simp only [mkRow, List.getElem?_map, List.getElem?_enum,
      List.getElem?_eq_getElem hi, Option.map_some']
    simp [List.getD_eq_getElem?_getD, List.getElem?_eq_getElem hi]

/-- C9 counterexample: the numeric CSV value `-5` is parsed and stored as
`-5`, so a stored field is not always non-negative. -/
theorem record_nonneg_counterexample :
    (mkPItem [("Date", "1/15/2024"), ("Estimate", "-5")]).estimate = -5
  ∧ ¬(0 ≤ (mkPItem [("Date", "1/15/2024"), ("Estimate", "-5")]).estimate) := by
  constructor
  · decide
  · decide

/-- C9 (amended): each numeric field of a record is parsed with
`parseFloat(x) || 0` semantics — the parsed value when the string has a
numeric prefix, `0` otherwise — with no clamping, so negative numeric input
is stored negative. -/
theorem record_fields_parse_semantics :
    (∀ r : RawRow,
        (mkPItem r).estimate = numOr0 (fieldStr r "Estimate")
      ∧ (mkPItem r).fifthPercentile = numOr0 (fieldStr r "5th Percentile")
      ∧ (mkPItem r).ninetyFifthPercentile = numOr0 (fieldStr r "95th Percentile"))
  ∧ (∀ s : String, parseFloatJS s = none → numOr0 s = 0)
  ∧ (∀ (s : String) (q : ℚ), parseFloatJS s = some q → numOr0 s = q) := by
  refine ⟨fun r => ⟨rfl, rfl, rfl⟩, fun s h => ?_, fun s q h => ?_⟩
  · simp [numOr0, h]
  · simp [numOr0, h]

/-- Instantiation of `record_fields_parse_semantics` at a non-numeric and a
numeric field value. -/
theorem record_fields_parse_semantics_witness :
    numOr0 "abc" = 0 ∧ numOr0 "45" = 45 :=
  ⟨record_fields_parse_semantics.2.1 "abc" (by decide),
   record_fields_parse_semantics.2.2 "45" 45 (by decide)⟩

/-- C10 counterexample: a quoted header cell keeps whitespace that was
inside the quotes, because the quote characters are stripped only after
trimming; the surviving row has the key `Extra ` ending in a space. -/
theorem header_whitespace_counterexample :
    parseCSV "Date,Estimate,\"Extra \"\n1/15/2024,45,7"
      = .ok [[("Date", "1/15/2024"), ("Estimate", "45"), ("Extra ", "7")]]
  ∧ jsTrim "Extra " ≠ "Extra " := by
  constructor
  · rfl
  · decide

/-- C10 (amended): every field value the parser stores is trimmed of leading
and trailing whitespace (including whitespace that was inside a quoted
span), and every row key is free of double-quote characters; keys are
trimmed before quote-stripping, so they are not in general trim-fixed. -/
theorem parseCSV_values_trimmed :
    ∀ (csvText : String) (rows : List RawRow), parseCSV csvText = .ok rows →
      ∀ row ∈ rows, ∀ p ∈ row, jsTrim p.2 = p.2 ∧ '"' ∉ p.1.data := by
  intro csvText rows h row hrow p hp
  rw [parseCSV] at h
  split at h
  · exact absurd h (by simp)
  · rw [Except.ok.injEq] at h
    subst h
    rcases List.mem_filterMap.mp hrow with ⟨l, _, hfl⟩
    simp only at hfl
    split at hfl
    · exact absurd hfl (by simp)
    · split at hfl
      · rw [Option.some.injEq] at hfl
        subst hfl
        rcases List.mem_map.mp hp with ⟨q, hqmem, hq⟩
        subst hq
        constructor
        · rcases hv : (parseCSVLine (jsTrim l))[q.1]? with _ | v
          · simp only [List.getD_eq_getElem?_getD, hv, Option.getD_none]
            rfl
          · simp only [List.getD_eq_getElem?_getD, hv, Option.getD_some]
            have hvmem : v ∈ parseCSVLine (jsTrim l) := List.getElem?_mem hv
            rcases mem_parseCSVLineGo false [] (jsTrim l).data v hvmem with ⟨cs, hcs⟩
            rw [hcs]
            exact jsTrim_mk_trimChars cs
        · have hq2 : q.2 ∈ (jsSplit (((jsSplit csvText '\n').filter
              (fun l => jsTrim l != "")).headD "") ',').map headerCell :=
            List.getElem?_mem (List.mem_enum_iff_getElem?.mp hqmem)
          rcases List.mem_map.mp hq2 with ⟨s, _, hs⟩
          rw [← hs]
          intro hmem
          have := (List.mem_filter.mp hmem).2
          simp at this
      · exact absurd hfl (by simp)

/-- Instantiation of `parseCSV_parse_error_and_rows`: a lone header line
fails, a header+data text succeeds with the expected row, and a missing
trailing value becomes the empty string. -/
theorem parseCSV_parse_error_and_rows_witness :
    parseCSV "Date,Estimate" = .error "CSV data appears to be empty or invalid"
  ∧ parseCSV "Date,Estimate\n1/15/2024,45" = .ok [[("Date", "1/15/2024"), ("Estimate", "45")]]
  ∧ (mkRow ["Date", "Estimate"] ["1/15/2024"])[1]? = some ("Estimate", "") := by
  refine ⟨(parseCSV_parse_error_and_rows "Date,Estimate").1 (by decide), ?_,
    (parseCSV_parse_error_and_rows "Date,Estimate").2.2 ["Date", "Estimate"] ["1/15/2024"] 1
      (by decide)⟩
  have h := (parseCSV_parse_error_and_rows "Date,Estimate\n1/15/2024,45").2.1 (by decide)
  rw [h]
  rfl

/-- Instantiation of `parseCSV_values_trimmed` on a concrete parsed row. -/
theorem parseCSV_values_trimmed_witness :
    jsTrim "45" = "45" ∧ '"' ∉ "Estimate".data :=
  parseCSV_values_trimmed "Date,Estimate\n1/15/2024,45"
    [[("Date", "1/15/2024"), ("Estimate", "45")]] (by rfl)
    [("Date", "1/15/2024"), ("Estimate", "45")] (by decide) ("Estimate", "45") (by decide)

theorem rawMaxFold_init_le (init : ℚ) (l : List FItem) : init ≤ rawMaxFold init l := by
  induction l generalizing init with
  | nil => exact le_refl _
  | cons x xs ih =>
    simp only [rawMaxFold, List.foldl_cons]
    exact le_trans (le_max_left _ _) (ih _)

theorem rawMaxFold_mem_le (init : ℚ) (l : List FItem) :
    ∀ it ∈ l, it.estimate ≤ rawMaxFold init l
      ∧ it.fifthPercentile ≤ rawMaxFold init l
      ∧ it.ninetyFifthPercentile ≤ rawMaxFold init l := by
  induction l generalizing init with
  | nil => intro it h; cases h
  | cons x xs ih =>
    intro it hit
    rcases List.mem_cons.mp hit with h | h
    · subst h
      have hle : max it.estimate (max it.fifthPercentile it.ninetyFifthPercentile)
          ≤ rawMaxFold init (it :: xs) := by
        simp only [rawMaxFold, List.foldl_cons]
        exact le_trans (le_max_right _ _) (rawMaxFold_init_le _ _)
      exact ⟨le_trans (le_max_left _ _) hle,
        le_trans (le_trans (le_max_left _ _) (le_max_right _ _)) hle,
        le_trans (le_trans (le_max_right _ _) (le_max_right _ _)) hle⟩
    · simpa only [rawMaxFold, List.foldl_cons] using ih _ it h

theorem rawMaxFold_attained (init : ℚ) (l : List FItem) :
    rawMaxFold init l = init
      ∨ ∃ it ∈ l, rawMaxFold init l = it.estimate
          ∨ rawMaxFold init l = it.fifthPercentile
          ∨ rawMaxFold init l = it.ninetyFifthPercentile := by
  induction l generalizing init with
  | nil => exact Or.inl rfl
  | cons x xs ih =>
    have hx : rawMaxFold init (x :: xs)
        = rawMaxFold (max init (max x.estimate (max x.fifthPercentile x.ninetyFifthPercentile))) xs := by
      simp [rawMaxFold]
    rcases ih (max init (max x.estimate (max x.fifthPercentile x.ninetyFifthPercentile))) with h | ⟨it, hit, h⟩
    · rw [hx] at *
      rcases max_choice init (max x.estimate (max x.fifthPercentile x.ninetyFifthPercentile)) with h2 | h2
      · exact Or.inl (h.trans h2)
      · refine Or.inr ⟨x, List.mem_cons_self _ _, ?_⟩
        rcases max_choice x.estimate (max x.fifthPercentile x.ninetyFifthPercentile) with h3 | h3
        · exact Or.inl ((h.trans h2).trans h3)
        · rcases max_choice x.fifthPercentile x.ninetyFifthPercentile with h4 | h4
          · exact Or.inr (Or.inl (((h.trans h2).trans h3).trans h4))
          · exact Or.inr (Or.inr (((h.trans h2).trans h3).trans h4))
    · rw [hx]
      exact Or.inr ⟨it, List.mem_cons_of_mem _ hit, h⟩

theorem one_le_newStepSize {m : ℚ} (hm : 0 ≤ m) : 1 ≤ newStepSize m := by
  have h0 : (0 : ℚ) ≤ qceil m := by
    simpa [qceil] using Int.ceil_nonneg hm
  have h1 : (1 : ℚ) ≤ qceil m / 5 + 1 := by
    have : (0 : ℚ) ≤ qceil m / 5 := by positivity
    linarith
  calc (1 : ℚ) ≤ qceil m / 5 + 1 := h1
    _ ≤ newStepSize m := by simpa [newStepSize, qceil] using Int.le_ceil (qceil m / 5 + 1)

theorem le_newMaxSteps {m : ℚ} (hm : 0 ≤ m) : m ≤ newMaxSteps m (newStepSize m) := by
  have hs : (1 : ℚ) ≤ newStepSize m := one_le_newStepSize hm
  have hs0 : (0 : ℚ) < newStepSize m := lt_of_lt_of_le one_pos hs
  have hdiv : m / newStepSize m ≤ qceil (m / newStepSize m) := by
    simpa [qceil] using Int.le_ceil (m / newStepSize m)
  calc m = m / newStepSize m * newStepSize m := (div_mul_cancel₀ m (ne_of_gt hs0)).symm
    _ ≤ qceil (m / newStepSize m) * newStepSize m :=
        mul_le_mul_of_nonneg_right hdiv (le_of_lt hs0)
    _ = newMaxSteps m (newStepSize m) := rfl

/-- C4 counterexample: for a series whose values are all `-10`, the claim's
formula (rawMax = the maximum value, here `-10`) gives step
`⌈⌈-10⌉/5 + 1⌉ = -1`, but the code folds from the instance field `0` and
produces step `1`. -/
theorem axis_scale_spec_counterexample :
    newStepSize (rawMaxFold initState.maxSteps [⟨⟨2024, 0, 15⟩, -10, -10, -10⟩])
      ≠ qceil (qceil (rawMaxSpec [⟨⟨2024, 0, 15⟩, -10, -10, -10⟩]) / 5 + 1) := by
  decide

/-- C4 (amended): on a fresh reader the step is `⌈⌈M⌉/5 + 1⌉` where `M` is
the maximum of `0` (the initial instance field) and all series values, so an
all-negative series yields `M = 0` rather than the series maximum; the step
is at least 1, the axis max is the multiple `⌈M/step⌉ · step`, which is at
least `M`, and an empty series resolves to step 1 and max 0 with no division
by zero. -/
theorem axis_scale_properties (l : List FItem) :
    (∀ it ∈ l, it.estimate ≤ rawMaxFold initState.maxSteps l
        ∧ it.fifthPercentile ≤ rawMaxFold initState.maxSteps l
        ∧ it.ninetyFifthPercentile ≤ rawMaxFold initState.maxSteps l)
  ∧ 0 ≤ rawMaxFold initState.maxSteps l
  ∧ (rawMaxFold initState.maxSteps l = 0
      ∨ ∃ it ∈ l, rawMaxFold initState.maxSteps l = it.estimate
          ∨ rawMaxFold initState.maxSteps l = it.fifthPercentile
          ∨ rawMaxFold initState.maxSteps l = it.ninetyFifthPercentile)
  ∧ newStepSize (rawMaxFold initState.maxSteps l)
      = qceil (qceil (rawMaxFold initState.maxSteps l) / 5 + 1)
  ∧ 1 ≤ newStepSize (rawMaxFold initState.maxSteps l)
  ∧ (∃ k : ℤ, newMaxSteps (rawMaxFold initState.maxSteps l)
        (newStepSize (rawMaxFold initState.maxSteps l))
        = (k : ℚ) * newStepSize (rawMaxFold initState.maxSteps l))
  ∧ rawMaxFold initState.maxSteps l
      ≤ newMaxSteps (rawMaxFold initState.maxSteps l)
          (newStepSize (rawMaxFold initState.maxSteps l))
  ∧ (l = [] → newStepSize (rawMaxFold initState.maxSteps l) = 1
        ∧ newMaxSteps (rawMaxFold initState.maxSteps l)
            (newStepSize (rawMaxFold initState.maxSteps l)) = 0) := by
  have h0 : (0 : ℚ) ≤ rawMaxFold initState.maxSteps l := rawMaxFold_init_le 0 l
  refine ⟨rawMaxFold_mem_le _ l, h0, ?_, rfl, one_le_newStepSize h0,
    ⟨⌈rawMaxFold initState.maxSteps l / newStepSize (rawMaxFold initState.maxSteps l)⌉, rfl⟩,
    le_newMaxSteps h0, fun hl => ?_⟩
  · rcases rawMaxFold_attained initState.maxSteps l with h | h
    · exact Or.inl h
    · exact Or.inr h
  · subst hl
    constructor
    · decide
    · decide

/-- Instantiation of `axis_scale_properties` at the spec's worked example
value (raw maximum 68 gives step 15 and axis max 75) and at the empty
series. -/
theorem axis_scale_properties_witness :
    (68 : ℚ) ≤ rawMaxFold initState.maxSteps [⟨⟨2024, 0, 15⟩, 68, 28, 65⟩]
  ∧ 1 ≤ newStepSize (rawMaxFold initState.maxSteps [⟨⟨2024, 0, 15⟩, 68, 28, 65⟩])
  ∧ newStepSize (rawMaxFold initState.maxSteps ([] : List FItem)) = 1
  ∧ newMaxSteps (rawMaxFold initState.maxSteps ([] : List FItem))
      (newStepSize (rawMaxFold initState.maxSteps ([] : List FItem))) = 0 :=
  ⟨((axis_scale_properties [⟨⟨2024, 0, 15⟩, 68, 28, 65⟩]).1
      ⟨⟨2024, 0, 15⟩, 68, 28, 65⟩ (List.mem_singleton_self _)).1,
   (axis_scale_properties [⟨⟨2024, 0, 15⟩, 68, 28, 65⟩]).2.2.2.2.1,
   ((axis_scale_properties ([] : List FItem)).2.2.2.2.2.2.2 rfl).1,
   ((axis_scale_properties ([] : List FItem)).2.2.2.2.2.2.2 rfl).2⟩

/-- C1 counterexample: processing the same single-row input twice in
succession on one instance gives axis step 15 then 16 (and axis max 75 then
80), because the second call folds the instance's stored `maxSteps = 75`
into the running maximum. -/
theorem process_repeat_counterexample :
    (processDataForChart initState
        [[("Date", "1/15/2024"), ("Estimate", "68"),
          ("5th Percentile", "0"), ("95th Percentile", "0")]]).2
      = ⟨75, 15⟩
  ∧ (processDataForChart (processDataForChart initState
        [[("Date", "1/15/2024"), ("Estimate", "68"),
          ("5th Percentile", "0"), ("95th Percentile", "0")]]).2
        [[("Date", "1/15/2024"), ("Estimate", "68"),
          ("5th Percentile", "0"), ("95th Percentile", "0")]]).2
      = ⟨80, 16⟩
  ∧ (processDataForChart (processDataForChart initState
        [[("Date", "1/15/2024"), ("Estimate", "68"),
          ("5th Percentile", "0"), ("95th Percentile", "0")]]).2
        [[("Date", "1/15/2024"), ("Estimate", "68"),
          ("5th Percentile", "0"), ("95th Percentile", "0")]]).2.stepSize
      ≠ (processDataForChart initState
        [[("Date", "1/15/2024"), ("Estimate", "68"),
          ("5th Percentile", "0"), ("95th Percentile", "0")]]).2.stepSize := by
  refine ⟨by decide, by decide, by decide⟩

/-- C1 (amended): the chart data (labels, dataset arrays, rawData) is a pure
function of the input rows, independent of instance state, but the axis
step and max are computed from the maximum of the instance's previous
`maxSteps` and the current series values — incrementally updated state, not
a pure function of the series; with a non-negative starting field the
stored maximum never decreases across a call, which is why a repeated call
can change the scale. -/
theorem process_state_dependence (st st' : ReaderState) (rows : List RawRow) :
    (processDataForChart st rows).1 = (processDataForChart st' rows).1
  ∧ (processDataForChart st rows).2.stepSize
      = newStepSize (rawMaxFold st.maxSteps (uniqueData rows))
  ∧ (processDataForChart st rows).2.maxSteps
      = newMaxSteps (rawMaxFold st.maxSteps (uniqueData rows))
          (newStepSize (rawMaxFold st.maxSteps (uniqueData rows)))
  ∧ (0 ≤ st.maxSteps → st.maxSteps ≤ (processDataForChart st rows).2.maxSteps) := by
  refine ⟨rfl, rfl, rfl, fun h => ?_⟩
  have h1 : st.maxSteps ≤ rawMaxFold st.maxSteps (uniqueData rows) :=
    rawMaxFold_init_le _ _
  exact le_trans h1 (le_newMaxSteps (le_trans h h1))

/-- Instantiation of `process_state_dependence` at the single-row input and
the state left by a first call. -/
theorem process_state_dependence_witness :
    (processDataForChart initState
        [[("Date", "1/15/2024"), ("Estimate", "68"),
          ("5th Percentile", "0"), ("95th Percentile", "0")]]).1
      = (processDataForChart (⟨75, 15⟩ : ReaderState)
        [[("Date", "1/15/2024"), ("Estimate", "68"),
          ("5th Percentile", "0"), ("95th Percentile", "0")]]).1
  ∧ initState.maxSteps ≤ (processDataForChart initState
        [[("Date", "1/15/2024"), ("Estimate", "68"),
          ("5th Percentile", "0"), ("95th Percentile", "0")]]).2.maxSteps :=
  ⟨(process_state_dependence initState ⟨75, 15⟩
      [[("Date", "1/15/2024"), ("Estimate", "68"),
        ("5th Percentile", "0"), ("95th Percentile", "0")]]).1,
   (process_state_dependence initState ⟨75, 15⟩
      [[("Date", "1/15/2024"), ("Estimate", "68"),
        ("5th Percentile", "0"), ("95th Percentile", "0")]]).2.2.2 (by decide)⟩

theorem dateLe_refl (a : SimpleDate) : dateLe a a := by
  unfold dateLe; omega

theorem dateLe_trans {a b c : SimpleDate} (h1 : dateLe a b) (h2 : dateLe b c) : dateLe a c := by
  unfold dateLe at *; omega

theorem dateLe_total (a b : SimpleDate) : dateLe a b ∨ dateLe b a := by
  unfold dateLe; omega

theorem dateLe_of_not_lt {a b : SimpleDate} (h : ¬dateLt a b) : dateLe b a := by
  unfold dateLt at h; unfold dateLe; omega

theorem dateLe_of_lt {a b : SimpleDate} (h : dateLt a b) : dateLe a b := by
  unfold dateLt at h; unfold dateLe; omega

theorem dateLt_of_le_of_ne {a b : SimpleDate} (h1 : dateLe a b) (h2 : a ≠ b) : dateLt a b := by
  obtain ⟨ay, am, ad⟩ := a
  obtain ⟨by', bm, bd⟩ := b
  unfold dateLe at h1
  unfold dateLt
  dsimp only at h1 ⊢
  by_cases hy : ay = by'
  · by_cases hm : am = bm
    · by_cases hd : ad = bd
      · subst hy; subst hm; subst hd
        exact absurd rfl h2
      · omega
    · omega
  · omega

theorem foldl_latestStep_fst_le (p : SimpleDate × Option Nat) (l : List (Nat × PItem)) :
    dateLe p.1 (List.foldl latestStep p l).1 := by
  induction l generalizing p with
  | nil => exact dateLe_refl _
  | cons q l ih =>
    have h1 : dateLe p.1 (latestStep p q).1 := by
      unfold latestStep
      rcases q.2.date with _ | d
      · exact dateLe_refl _
      · by_cases h : dateLe p.1 d
        · simpa [h] using h
        · simpa [h] using dateLe_refl _
    simpa only [List.foldl_cons] using dateLe_trans h1 (ih (latestStep p q))

theorem foldl_latestStep_mem_le (p : SimpleDate × Option Nat) (l : List (Nat × PItem)) :
    ∀ q ∈ l, ∀ d, q.2.date = some d → dateLe d (List.foldl latestStep p l).1 := by
  induction l generalizing p with
  | nil => intro q hq; cases hq
  | cons x xs ih =>
    intro q hq d hd
    rcases List.mem_cons.mp hq with h | h
    · subst h
      simp only [List.foldl_cons]
      by_cases hle : dateLe p.1 d
      · have hstep : (latestStep p q).1 = d := by
          unfold latestStep; rw [hd]; simp [hle]
        have := foldl_latestStep_fst_le (latestStep p q) xs
        rw [hstep] at this
        exact this
      · have hdp : dateLe d p.1 := by
          rcases dateLe_total d p.1 with h | h
          · exact h
          · exact absurd h hle
        have hstep : (latestStep p q).1 = p.1 := by
          unfold latestStep; rw [hd]; simp [hle]
        have := foldl_latestStep_fst_le (latestStep p q) xs
        rw [hstep] at this
        exact dateLe_trans hdp this
    · simpa only [List.foldl_cons] using ih (latestStep p x) q h d hd

theorem foldl_latestStep_attained (p : SimpleDate × Option Nat) (l : List (Nat × PItem)) :
    (List.foldl latestStep p l).1 = p.1
      ∨ ∃ q ∈ l, q.2.date = some (List.foldl latestStep p l).1 := by
  induction l generalizing p with
  | nil => exact Or.inl rfl
  | cons x xs ih =>
    simp only [List.foldl_cons]
    rcases ih (latestStep p x) with h | ⟨q, hq, hdate⟩
    · rcases hd : x.2.date with _ | d
      · left
        rw [h]; unfold latestStep; rw [hd]
      · by_cases hle : dateLe p.1 d
        · right
          refine ⟨x, List.mem_cons_self _ _, ?_⟩
          rw [hd, h]
          unfold latestStep; rw [hd]; simp [hle]
        · left
          rw [h]; unfold latestStep; rw [hd]; simp [hle]
    · exact Or.inr ⟨q, List.mem_cons_of_mem _ hq, hdate⟩

theorem foldl_latestStep_idx (items : List PItem) (l : List (Nat × PItem))
    (p : SimpleDate × Option Nat)
    (hl : ∀ q ∈ l, items[q.1]? = some q.2)
    (hp : ∀ j, p.2 = some j → ∃ it, items[j]? = some it ∧ it.date = some p.1) :
    ∀ j, (List.foldl latestStep p l).2 = some j →
      ∃ it, items[j]? = some it ∧ it.date = some (List.foldl latestStep p l).1 := by
  induction l generalizing p with
  | nil => exact hp
  | cons x xs ih =>
    simp only [List.foldl_cons]
    refine ih (latestStep p x) (fun q hq => hl q (List.mem_cons_of_mem _ hq)) ?_
    intro j hj
    rcases hd : x.2.date with _ | d
    · unfold latestStep at hj ⊢
      rw [hd] at hj ⊢
      exact hp j hj
    · by_cases hle : dateLe p.1 d
      · have hj' : j = x.1 := by
          unfold latestStep at hj
          rw [hd] at hj
          simp [hle] at hj
          exact hj.symm
        subst hj'
        refine ⟨x.2, hl x (List.mem_cons_self _ _), ?_⟩
        unfold latestStep
        rw [hd]
        simp [hle, hd]
      · have hj' : p.2 = some j := by
          unfold latestStep at hj
          rw [hd] at hj
          simpa [hle] using hj
        rcases hp j hj' with ⟨it, h1, h2⟩
        refine ⟨it, h1, ?_⟩
        unfold latestStep
        rw [hd]
        simpa [hle] using h2

/-- C3 counterexample, two scenarios.  (1) Latest date 1/31/2024: the claim's
floor is 11/1/2023, but the code's `setMonth` keeps day 31, which overflows
November into December before `setDate(1)`, giving floor 12/1/2023 and
dropping the validly-dated record 11/15/2023 that the claim retains.
(2) A single record dated 1/15/1960: the running maximum starts at
`new Date(0)` and a pre-epoch date never updates it, so the floor is
computed from 1/1/1970 (floor 11/1/1969), not from the latest valid date
(claimed floor 11/1/1959), and the record is dropped entirely. -/
theorem window_floor_counterexample :
    parseDateJS "1/31/2024" = some ⟨2024, 0, 31⟩
  ∧ parseDateJS "11/15/2023" = some ⟨2023, 10, 15⟩
  ∧ specWindowFloor ⟨2024, 0, 31⟩ = ⟨2023, 10, 1⟩
  ∧ windowFloorOf (processedData [[("Date", "1/31/2024"), ("Estimate", "50")],
      [("Date", "11/15/2023"), ("Estimate", "40")]]) = ⟨2023, 11, 1⟩
  ∧ dateLe (specWindowFloor ⟨2024, 0, 31⟩) ⟨2023, 10, 15⟩
  ∧ (dateFilteredMin (processedData [[("Date", "1/31/2024"), ("Estimate", "50")],
      [("Date", "11/15/2023"), ("Estimate", "40")]])).all
        (fun it => it.date != ⟨2023, 10, 15⟩)
  ∧ parseDateJS "1/15/1960" = some ⟨1960, 0, 15⟩
  ∧ specWindowFloor ⟨1960, 0, 15⟩ = ⟨1959, 10, 1⟩
  ∧ windowFloorOf (processedData [[("Date", "1/15/1960"), ("Estimate", "5")]]) = ⟨1969, 10, 1⟩
  ∧ dateFilteredMin (processedData [[("Date", "1/15/1960"), ("Estimate", "5")]]) = [] := by
  refine ⟨by decide, by decide, by decide, by decide, by decide, by decide,
    by decide, by decide, by decide, by decide⟩

/-- C3 (amended): the fold's latest date is the maximum of the epoch
`new Date(0)` and every valid row date, attained by some row unless it is
the epoch; the floor is `jsWindowFloor` of that date (month subtraction
with JS day-overflow normalization, then day := 1); the row the fold last
assigned — which carries the maximum date — is mutated in place so its date
becomes the floor; and the date filter keeps exactly the (post-mutation)
items with a valid date at or after the floor. -/
theorem window_floor_and_retention (items : List PItem) :
    dateLe epochDate (latestDate items)
  ∧ (∀ it ∈ items, ∀ d, it.date = some d → dateLe d (latestDate items))
  ∧ (latestDate items = epochDate
      ∨ ∃ it ∈ items, it.date = some (latestDate items))
  ∧ windowFloorOf items = jsWindowFloor (latestDate items)
  ∧ (∀ j, (latestAndIdx items).2 = some j →
        ∃ it, items[j]? = some it ∧ it.date = some (latestDate items))
  ∧ ((latestAndIdx items).2 = none → mutatedItems items = items)
  ∧ (∀ j it, (latestAndIdx items).2 = some j → items[j]? = some it →
        mutatedItems items = items.set j { it with date := some (windowFloorOf items) })
  ∧ dateFilteredMin items = (mutatedItems items).filterMap (fun it =>
      match it.date with
      | some d =>
        if dateLe (windowFloorOf items) d then
          some ⟨d, it.estimate, it.fifthPercentile, it.ninetyFifthPercentile⟩
        else none
      | none => none) := by
  refine ⟨?_, ?_, ?_, rfl, ?_, ?_, ?_, rfl⟩
  · exact foldl_latestStep_fst_le (epochDate, none) items.enum
  · intro it hit d hd
    rcases List.mem_iff_getElem?.mp hit with ⟨i, hi⟩
    have hmem : (i, it) ∈ items.enum := List.mem_enum_iff_getElem?.mpr hi
    exact foldl_latestStep_mem_le (epochDate, none) items.enum (i, it) hmem d hd
  · rcases foldl_latestStep_attained (epochDate, none) items.enum with h | ⟨q, hq, hdate⟩
    · exact Or.inl h
    · exact Or.inr ⟨q.2, by
        have := List.mem_enum_iff_getElem?.mp hq
        exact List.getElem?_mem this, hdate⟩
  · intro j hj
    refine foldl_latestStep_idx items items.enum (epochDate, none) ?_ ?_ j hj
    · intro q hq
      exact List.mem_enum_iff_getElem?.mp hq
    · intro j hj
      cases hj
  · intro h
    simp [mutatedItems, latestDate] at h ⊢
    rw [h]
  · intro j it hj hit
    unfold mutatedItems
    rw [hj]
    dsimp only
    rw [List.get?_eq_getElem?, hit]

/-- Instantiation of `window_floor_and_retention` on the two-row 1/31/2024
input: the second row's date is bounded by the latest date, index 0 carries
the maximum, and the mutation rewrites row 0's date to the floor. -/
theorem window_floor_and_retention_witness :
    dateLe ⟨2023, 10, 15⟩ (latestDate
      [⟨some ⟨2024, 0, 31⟩, 50, 0, 0⟩, ⟨some ⟨2023, 10, 15⟩, 40, 0, 0⟩])
  ∧ (∃ it, ([⟨some ⟨2024, 0, 31⟩, 50, 0, 0⟩,
        ⟨some ⟨2023, 10, 15⟩, 40, 0, 0⟩] : List PItem)[0]? = some it
      ∧ it.date = some (latestDate
          [⟨some ⟨2024, 0, 31⟩, 50, 0, 0⟩, ⟨some ⟨2023, 10, 15⟩, 40, 0, 0⟩]))
  ∧ mutatedItems [⟨some ⟨2024, 0, 31⟩, 50, 0, 0⟩, ⟨some ⟨2023, 10, 15⟩, 40, 0, 0⟩]
      = ([⟨some ⟨2024, 0, 31⟩, 50, 0, 0⟩, ⟨some ⟨2023, 10, 15⟩, 40, 0, 0⟩] : List PItem).set 0
          ⟨some (windowFloorOf
            [⟨some ⟨2024, 0, 31⟩, 50, 0, 0⟩, ⟨some ⟨2023, 10, 15⟩, 40, 0, 0⟩]), 50, 0, 0⟩ :=
  ⟨(window_floor_and_retention
      [⟨some ⟨2024, 0, 31⟩, 50, 0, 0⟩, ⟨some ⟨2023, 10, 15⟩, 40, 0, 0⟩]).2.1
      ⟨some ⟨2023, 10, 15⟩, 40, 0, 0⟩ (by decide) ⟨2023, 10, 15⟩ rfl,
   (window_floor_and_retention
      [⟨some ⟨2024, 0, 31⟩, 50, 0, 0⟩, ⟨some ⟨2023, 10, 15⟩, 40, 0, 0⟩]).2.2.2.2.1
      0 (by decide),
   (window_floor_and_retention
      [⟨some ⟨2024, 0, 31⟩, 50, 0, 0⟩, ⟨some ⟨2023, 10, 15⟩, 40, 0, 0⟩]).2.2.2.2.2.2.1
      0 ⟨some ⟨2024, 0, 31⟩, 50, 0, 0⟩ (by decide) (by decide)⟩

theorem mem_insertByDate (x a : FItem) (l : List FItem) :
    a ∈ insertByDate x l ↔ a = x ∨ a ∈ l := by
  induction l with
  | nil => simp [insertByDate]
  | cons y ys ih =>
    by_cases h : dateLt y.date x.date
    · simp only [insertByDate, if_pos h, List.mem_cons, ih]
      tauto
    · simp only [insertByDate, if_neg h, List.mem_cons]

theorem pairwise_insertByDate (x : FItem) (l : List FItem)
    (hl : l.Pairwise (fun a b => dateLe a.date b.date)) :
    (insertByDate x l).Pairwise (fun a b => dateLe a.date b.date) := by
  induction l with
  | nil => simp [insertByDate]
  | cons y ys ih =>
    rcases List.pairwise_cons.mp hl with ⟨hy, hys⟩
    by_cases h : dateLt y.date x.date
    · simp only [insertByDate, if_pos h]
      refine List.pairwise_cons.mpr ⟨?_, ih hys⟩
      intro b hb
      rcases (mem_insertByDate x b ys).mp hb with hb | hb
      · subst hb
        exact dateLe_of_lt h
      · exact hy b hb
    · simp only [insertByDate, if_neg h]
      refine List.pairwise_cons.mpr ⟨?_, hl⟩
      intro b hb
      rcases List.mem_cons.mp hb with hb | hb
      · subst hb
        exact dateLe_of_not_lt h
      · exact dateLe_trans (dateLe_of_not_lt h) (hy b hb)

theorem sortByDate_pairwise (l : List FItem) :
    (sortByDate l).Pairwise (fun a b => dateLe a.date b.date) := by
  induction l with
  | nil => simp [sortByDate]
  | cons x xs ih => exact pairwise_insertByDate x (sortByDate xs) ih

theorem mem_sortByDate (l : List FItem) (a : FItem) : a ∈ sortByDate l ↔ a ∈ l := by
  induction l with
  | nil => simp [sortByDate]
  | cons x xs ih =>
    show a ∈ insertByDate x (sortByDate xs) ↔ _
    rw [mem_insertByDate]
    simp [ih]

theorem dedupGo_sublist (l : List FItem) (seen : List SimpleDate) :
    List.Sublist (dedupGo l seen) l := by
  induction l generalizing seen with
  | nil => simp [dedupGo]
  | cons it rest ih =>
    by_cases h : it.date ∈ seen
    · simp only [dedupGo, if_pos h]
      exact (ih seen).cons it
    · simp only [dedupGo, if_neg h]
      exact (ih (it.date :: seen)).cons₂ it

theorem dedupGo_mem_not_seen (l : List FItem) (seen : List SimpleDate) :
    ∀ x ∈ dedupGo l seen, x.date ∉ seen := by
  induction l generalizing seen with
  | nil => intro x hx; cases hx
  | cons it rest ih =>
    intro x hx
    by_cases h : it.date ∈ seen
    · simp only [dedupGo, if_pos h] at hx
      exact ih seen x hx
    · simp only [dedupGo, if_neg h] at hx
      rcases List.mem_cons.mp hx with hx | hx
      · subst hx
        intro hmem
        exact h hmem
      · intro hmem
        exact ih (it.date :: seen) x hx (List.mem_cons_of_mem _ hmem)

theorem dedupGo_pairwise_ne (l : List FItem) (seen : List SimpleDate) :
    (dedupGo l seen).Pairwise (fun a b => a.date ≠ b.date) := by
  induction l generalizing seen with
  | nil => simp [dedupGo]
  | cons it rest ih =>
    by_cases h : it.date ∈ seen
    · simpa only [dedupGo, if_pos h] using ih seen
    · simp only [dedupGo, if_neg h]
      refine List.pairwise_cons.mpr ⟨?_, ih (it.date :: seen)⟩
      intro b hb heq
      exact dedupGo_mem_not_seen rest (it.date :: seen) b hb (heq ▸ List.mem_cons_self _ _)

theorem dedupGo_find? (l : List FItem) (seen : List SimpleDate) (k : SimpleDate)
    (hk : k ∉ seen) :
    (dedupGo l seen).find? (fun it => it.date == k) = l.find? (fun it => it.date == k) := by
  induction l generalizing seen with
  | nil => simp [dedupGo]
  | cons it rest ih =>
    by_cases hc : it.date ∈ seen
    · have hne : (it.date == k) = false := by
        have : it.date ≠ k := fun h => hk (h ▸ hc)
        simpa using this
      simp only [dedupGo, if_pos hc, List.find?_cons, hne]
      exact ih seen hk
    · simp only [dedupGo, if_neg hc, List.find?_cons]
      rcases he : (it.date == k) with _ | _
      · simp only [he]
        refine ih (it.date :: seen) ?_
        intro hkmem
        have hne' : it.date ≠ k := by simpa using he
        rcases List.mem_cons.mp hkmem with h | h
        · exact hne' h.symm
        · exact hk h
      · simp only [he]

theorem dedupGo_day_covered (l : List FItem) (seen : List SimpleDate) :
    ∀ x ∈ l, x.date ∉ seen → ∃ y ∈ dedupGo l seen, y.date = x.date := by
  induction l generalizing seen with
  | nil => intro x hx; cases hx
  | cons it rest ih =>
    intro x hx hnot
    by_cases hc : it.date ∈ seen
    · have hitmem : it.date ∈ seen := hc
      rcases List.mem_cons.mp hx with hx | hx
      · subst hx
        exact absurd hitmem hnot
      · simp only [dedupGo, if_pos hc]
        exact ih seen x hx hnot
    · simp only [dedupGo, if_neg hc]
      rcases List.mem_cons.mp hx with hx | hx
      · subst hx
        exact ⟨x, List.mem_cons_self _ _, rfl⟩
      · by_cases hxd : x.date = it.date
        · exact ⟨it, List.mem_cons_self _ _, hxd.symm⟩
        · rcases ih (it.date :: seen) x hx (by
            intro hmem
            rcases List.mem_cons.mp hmem with h | h
            · exact hxd h
            · exact hnot h) with ⟨y, hy, hydate⟩
          exact ⟨y, List.mem_cons_of_mem _ hy, hydate⟩

/-- C2: for every CSV text that parses, the `rawData` series attached to the
chart is strictly ascending by date — in particular no two records share a
calendar day — and for each calendar day present in the sorted, window-
filtered list, the record kept is precisely the first record with that day
after sorting, with every day represented. -/
theorem normalized_series_sorted_dedup (csvText : String) (rows : List RawRow)
    (st : ReaderState) (h : parseCSV csvText = .ok rows) :
    ((processDataForChart st rows).1.rawData.Pairwise (fun a b => dateLt a.date b.date))
  ∧ ((processDataForChart st rows).1.rawData.Pairwise (fun a b => a.date ≠ b.date))
  ∧ (∀ k : SimpleDate,
      (processDataForChart st rows).1.rawData.find? (fun it => it.date == k)
        = (sortByDate (dateFilteredMin (processedData rows))).find? (fun it => it.date == k))
  ∧ (∀ x ∈ sortByDate (dateFilteredMin (processedData rows)),
      ∃ y ∈ (processDataForChart st rows).1.rawData, y.date = x.date) := by
  have hraw : (processDataForChart st rows).1.rawData
      = dedupGo (sortByDate (dateFilteredMin (processedData rows))) [] := rfl
  have hle : ((processDataForChart st rows).1.rawData).Pairwise
      (fun a b => dateLe a.date b.date) := by
    rw [hraw]
    exact (sortByDate_pairwise _).sublist (dedupGo_sublist _ _)
  have hne : ((processDataForChart st rows).1.rawData).Pairwise
      (fun a b => a.date ≠ b.date) := by
    rw [hraw]
    exact dedupGo_pairwise_ne _ _
  refine ⟨?_, hne, ?_, ?_⟩
  · exact (hle.and hne).imp (fun hab => dateLt_of_le_of_ne hab.1 hab.2)
  · intro k
    rw [hraw]
    exact dedupGo_find? _ [] k (List.not_mem_nil k)
  · intro x hx
    rw [hraw]
    exact dedupGo_day_covered _ [] x hx (List.not_mem_nil _)

/-- Instantiation of `normalized_series_sorted_dedup` on a two-row CSV whose
rows share the calendar day 1/15/2024: the kept record for that day is the
first one after sorting (the row with estimate 45, which precedes the
duplicate in the stable sort), and the day is represented. -/
theorem normalized_series_sorted_dedup_witness :
    ((processDataForChart initState
        [[("Date", "1/15/2024"), ("Estimate", "45")],
         [("Date", "1/15/2024"), ("Estimate", "99")]]).1.rawData.find?
        (fun it => it.date == ⟨2023, 10, 1⟩)
      = (sortByDate (dateFilteredMin (processedData
          [[("Date", "1/15/2024"), ("Estimate", "45")],
           [("Date", "1/15/2024"), ("Estimate", "99")]]))).find?
        (fun it => it.date == ⟨2023, 10, 1⟩))
  ∧ ((processDataForChart initState
        [[("Date", "1/15/2024"), ("Estimate", "45")],
         [("Date", "1/15/2024"), ("Estimate", "99")]]).1.rawData.Pairwise
        (fun a b => dateLt a.date b.date)) :=
  ⟨(normalized_series_sorted_dedup
      "Date,Estimate\n1/15/2024,45\n1/15/2024,99"
      [[("Date", "1/15/2024"), ("Estimate", "45")],
       [("Date", "1/15/2024"), ("Estimate", "99")]] initState (by rfl)).2.2.1
      ⟨2023, 10, 1⟩,
   (normalized_series_sorted_dedup
      "Date,Estimate\n1/15/2024,45\n1/15/2024,99"
      [[("Date", "1/15/2024"), ("Estimate", "45")],
       [("Date", "1/15/2024"), ("Estimate", "99")]] initState (by rfl)).1⟩

theorem monthNameAt_ne_empty (i : Int) : monthNameAt i ≠ "" := by
  unfold monthNameAt
  split
  · decide
  · rcases h : i.toNat with _ | n
    · decide
    · rcases Nat.lt_or_ge (n + 1) 12 with hlt | hge
      · have : ∀ a : Fin 12, monthNames.getD a.val "undefined" ≠ "" := by decide
        exact this ⟨n + 1, hlt⟩
      · rw [List.getD_eq_getElem?_getD, List.getElem?_eq_none (by simpa [monthNames] using hge)]
        decide

theorem monthNameAt_inj {m m' : Int} (h1 : 0 ≤ m) (h2 : m < 12) (h3 : 0 ≤ m')
    (h4 : m' < 12) (h : monthNameAt m = monthNameAt m') : m = m' := by
  have hm : ¬(m < 0) := not_lt.mpr h1
  have hm' : ¬(m' < 0) := not_lt.mpr h3
  unfold monthNameAt at h
  rw [if_neg hm, if_neg hm'] at h
  have hlt : m.toNat < 12 := by omega
  have hlt' : m'.toNat < 12 := by omega
  have hfin : ∀ a b : Fin 12,
      monthNames.getD a.val "undefined" = monthNames.getD b.val "undefined" → a = b := by decide
  have := hfin ⟨m.toNat, hlt⟩ ⟨m'.toNat, hlt'⟩ h
  have : m.toNat = m'.toNat := congrArg Fin.val this
  omega

theorem buildLabelsGo_length (l : List FItem) : ∀ seen, (buildLabelsGo l seen).length = l.length := by
  induction l with
  | nil => intro seen; rfl
  | cons it rest ih =>
    intro seen
    unfold buildLabelsGo
    by_cases h : (monthNameAt it.date.m, it.date.y) ∈ seen
    · simp [h, ih]
    · simp [h, ih]

theorem buildLabelsGo_eq_spec (l : List FItem) :
    ∀ (prev : List FItem) (seen : List (String × Int)),
    (∀ it ∈ l, 0 ≤ it.date.m ∧ it.date.m < 12) →
    (∀ p ∈ prev, 0 ≤ p.date.m ∧ p.date.m < 12) →
    (∀ k, k ∈ seen ↔ prev.any (fun p => (monthNameAt p.date.m, p.date.y) == k) = true) →
    buildLabelsGo l seen = specLabelsAux prev l := by
  induction l with
  | nil => intro prev seen _ _ _; rfl
  | cons it rest ih =>
    intro prev seen hl hprev hseen
    have hit := hl it (List.mem_cons_self _ _)
    have hrest : ∀ it2 ∈ rest, 0 ≤ it2.date.m ∧ it2.date.m < 12 :=
      fun it2 h2 => hl it2 (List.mem_cons_of_mem _ h2)
    have hprev' : ∀ p ∈ prev ++ [it], 0 ≤ p.date.m ∧ p.date.m < 12 := by
      intro p hp
      rcases List.mem_append.mp hp with h | h
      · exact hprev p h
      · rw [List.mem_singleton.mp h]
        exact hit
    have hkey : ((monthNameAt it.date.m, it.date.y) ∈ seen)
        ↔ prev.any (fun p => p.date.m == it.date.m && p.date.y == it.date.y) = true := by
      rw [hseen]
      simp only [List.any_eq_true, Prod.mk.injEq, Bool.and_eq_true, beq_iff_eq]
      constructor
      · rintro ⟨p, hp, hname, hy⟩
        exact ⟨p, hp, monthNameAt_inj (hprev p hp).1 (hprev p hp).2 hit.1 hit.2 hname, hy⟩
      · rintro ⟨p, hp, hm, hy⟩
        exact ⟨p, hp, by rw [hm], hy⟩
    unfold buildLabelsGo specLabelsAux
    by_cases hb : prev.any (fun p => p.date.m == it.date.m && p.date.y == it.date.y) = true
    · rw [if_pos (hkey.mpr hb), if_pos hb]
      refine congrArg (List.cons "") (ih (prev ++ [it]) seen hrest hprev' ?_)
      intro k
      rw [hseen k]
      simp only [List.any_append, List.any_cons, List.any_nil, Bool.or_false, Bool.or_eq_true]
      constructor
      · exact Or.inl
      · rintro (h | h)
        · exact h
        · simp only [beq_iff_eq] at h
          subst h
          simp only [List.any_eq_true] at hb ⊢
          rcases hb with ⟨p, hp, hpb⟩
          simp only [Bool.and_eq_true, beq_iff_eq] at hpb
          exact ⟨p, hp, by simp [Prod.mk.injEq, hpb.1, hpb.2]⟩
    · rw [if_neg (fun hmem => hb (hkey.mp hmem)), if_neg hb]
      refine congrArg _ (ih (prev ++ [it]) ((monthNameAt it.date.m, it.date.y) :: seen)
        hrest hprev' ?_)
      intro k
      simp only [List.mem_cons, List.any_append, List.any_cons, List.any_nil,
        Bool.or_false, Bool.or_eq_true]
      constructor
      · rintro (h | h)
        · subst h
          exact Or.inr (by simp)
        · exact Or.inl ((hseen k).mp h)
      · rintro (h | h)
        · exact Or.inr ((hseen k).mpr h)
        · simp only [beq_iff_eq] at h
          exact Or.inl h.symm

theorem dedup_cons_length {α : Type} [DecidableEq α] (a : α) (l : List α) :
    ((a :: l).dedup).length = 1 + ((l.filter (fun x => x ≠ a)).dedup).length := by
  rw [← List.card_toFinset, ← List.card_toFinset, List.toFinset_cons, List.toFinset_filter]
  have hfil : l.toFinset.filter (fun x => x ≠ a) = l.toFinset.erase a :=
    Finset.filter_ne' _ _
  by_cases hmem : a ∈ l.toFinset
  · rw [Finset.card_insert_of_mem hmem]
    have h1 : (l.toFinset.filter (fun x => decide (x ≠ a) = true)).card
        = (l.toFinset.erase a).card := by
      rw [← hfil]
      congr 1
      simp
    rw [h1, Finset.card_erase_of_mem hmem]
    have hpos : 0 < l.toFinset.card := Finset.card_pos.mpr ⟨a, hmem⟩
    omega
  · rw [Finset.card_insert_of_not_mem hmem]
    have h1 : (l.toFinset.filter (fun x => decide (x ≠ a) = true)).card
        = (l.toFinset.erase a).card := by
      rw [← hfil]
      congr 1
      simp
    rw [h1, Finset.erase_eq_of_not_mem hmem]
    omega

theorem buildLabelsGo_count (l : List FItem) : ∀ seen : List (String × Int),
    ((buildLabelsGo l seen).filter (fun s => s != "")).length
      = ((l.map (fun it => (monthNameAt it.date.m, it.date.y))).filter
          (fun k => k ∉ seen)).dedup.length := by
  induction l with
  | nil => intro seen; rfl
  | cons it rest ih =>
    intro seen
    unfold buildLabelsGo
    by_cases h : (monthNameAt it.date.m, it.date.y) ∈ seen
    · rw [if_pos h]
      have h1 : (("" : String) != "") = false := rfl
      have h2 : decide ((monthNameAt it.date.m, it.date.y) ∉ seen) = false := by simp [h]
      simp only [List.map_cons, List.filter_cons, h1, h2, Bool.false_eq_true, if_false]
      exact ih seen
    · rw [if_neg h]
      have hmn : (monthNameAt it.date.m != "") = true := by
        simpa using monthNameAt_ne_empty it.date.m
      have h2 : decide ((monthNameAt it.date.m, it.date.y) ∉ seen) = true := by simp [h]
      simp only [List.map_cons, List.filter_cons, hmn, h2, if_true]
      rw [List.length_cons, dedup_cons_length, ih ((monthNameAt it.date.m, it.date.y) :: seen)]
      have hff : ((rest.map (fun it2 => (monthNameAt it2.date.m, it2.date.y))).filter
            (fun k => k ∉ seen)).filter
              (fun k => k ≠ (monthNameAt it.date.m, it.date.y))
          = (rest.map (fun it2 => (monthNameAt it2.date.m, it2.date.y))).filter
            (fun k => k ∉ (monthNameAt it.date.m, it.date.y) :: seen) := by
        rw [List.filter_filter]
        refine List.filter_congr ?_
        intro k _
        simp only [List.mem_cons, Bool.and_eq_true, decide_eq_true_eq, not_or]
        rw [Bool.decide_and]
      rw [hff]
      omega

/-- C8: for a series whose months are in range (as every pipeline-produced
record's month is), the label sequence has the same length as the series;
it equals the declarative rule "month abbreviation exactly at the first
record of each distinct (month, year) pair, empty elsewhere"
(`specLabelsAux`); the number of non-empty labels is exactly the number of
distinct (month, year) pairs; and every label written is the table's
three-letter month abbreviation. -/
theorem labels_structure (l : List FItem)
    (h : ∀ it ∈ l, 0 ≤ it.date.m ∧ it.date.m < 12) :
    (buildLabels l).length = l.length
  ∧ buildLabels l = specLabelsAux [] l
  ∧ ((buildLabels l).filter (fun s => s != "")).length
      = (l.map (fun it => (it.date.m, it.date.y))).dedup.length
  ∧ (∀ it ∈ l, monthNameAt it.date.m = monthNames.getD it.date.m.toNat "undefined"
        ∧ monthNameAt it.date.m ≠ "") := by
  refine ⟨buildLabelsGo_length l [], ?_, ?_, ?_⟩
  · exact buildLabelsGo_eq_spec l [] [] h (by intro p hp; cases hp) (by simp)
  · have hcount := buildLabelsGo_count l []
    have hfilter : ((l.map (fun it => (monthNameAt it.date.m, it.date.y))).filter
          (fun k => k ∉ ([] : List (String × Int))))
        = l.map (fun it => (monthNameAt it.date.m, it.date.y)) := by
      apply List.filter_eq_self.mpr
      intro k _
      simp
    rw [buildLabels, hcount, hfilter, ← List.card_toFinset, ← List.card_toFinset]
    have hmm : l.map (fun it => (monthNameAt it.date.m, it.date.y))
        = (l.map (fun it => (it.date.m, it.date.y))).map (fun q => (monthNameAt q.1, q.2)) := by
      rw [List.map_map]
      rfl
    have himg : ((l.map (fun it => (it.date.m, it.date.y))).map
          (fun q => (monthNameAt q.1, q.2))).toFinset
        = (l.map (fun it => (it.date.m, it.date.y))).toFinset.image
            (fun q => (monthNameAt q.1, q.2)) := by
      ext b
      simp
    rw [hmm, himg]
    apply Finset.card_image_of_injOn
    intro p hp q hq hpq
    have hp' : ∃ it ∈ l, (it.date.m, it.date.y) = p := by
      simpa using List.mem_toFinset.mp hp
    have hq' : ∃ it ∈ l, (it.date.m, it.date.y) = q := by
      simpa using List.mem_toFinset.mp hq
    rcases hp' with ⟨a, ha, hap⟩
    rcases hq' with ⟨b, hb, hbq⟩
    have hpa := h a ha
    have hqb := h b hb
    rw [← hap, ← hbq] at hpq ⊢
    simp only [Prod.mk.injEq] at hpq ⊢
    exact ⟨monthNameAt_inj hpa.1 hpa.2 hqb.1 hqb.2 hpq.1, hpq.2⟩
  · intro it hit
    have hb := h it hit
    constructor
    · unfold monthNameAt
      rw [if_neg (not_lt.mpr hb.1)]
    · exact monthNameAt_ne_empty _

/-- Instantiation of `labels_structure` on the two-record December/January
series: labels `["DEC", "JAN"]`, matching the declarative rule, with two
distinct (month, year) pairs. -/
theorem labels_structure_witness :
    (buildLabels [⟨⟨2023, 11, 1⟩, 48, 32, 68⟩, ⟨⟨2024, 0, 15⟩, 45, 28, 65⟩]).length
      = ([⟨⟨2023, 11, 1⟩, 48, 32, 68⟩, ⟨⟨2024, 0, 15⟩, 45, 28, 65⟩] : List FItem).length
  ∧ buildLabels [⟨⟨2023, 11, 1⟩, 48, 32, 68⟩, ⟨⟨2024, 0, 15⟩, 45, 28, 65⟩]
      = specLabelsAux [] [⟨⟨2023, 11, 1⟩, 48, 32, 68⟩, ⟨⟨2024, 0, 15⟩, 45, 28, 65⟩]
  ∧ ((buildLabels [⟨⟨2023, 11, 1⟩, 48, 32, 68⟩, ⟨⟨2024, 0, 15⟩, 45, 28, 65⟩]).filter
        (fun s => s != "")).length
      = (([⟨⟨2023, 11, 1⟩, 48, 32, 68⟩, ⟨⟨2024, 0, 15⟩, 45, 28, 65⟩] : List FItem).map
          (fun it => (it.date.m, it.date.y))).dedup.length :=
  ⟨(labels_structure [⟨⟨2023, 11, 1⟩, 48, 32, 68⟩, ⟨⟨2024, 0, 15⟩, 45, 28, 65⟩]
      (by decide)).1,
   (labels_structure [⟨⟨2023, 11, 1⟩, 48, 32, 68⟩, ⟨⟨2024, 0, 15⟩, 45, 28, 65⟩]
      (by decide)).2.1,
   (labels_structure [⟨⟨2023, 11, 1⟩, 48, 32, 68⟩, ⟨⟨2024, 0, 15⟩, 45, 28, 65⟩]
      (by decide)).2.2.1⟩

/-- C5 counterexample: with two active elements of the 5th-percentile series
and one of the 95th, the positioner anchors at the midpoint of the first two
percentile *elements* (both 5th-percentile, giving y = (20+40)/2 - 10 = 20),
while rule (3) of the claim — both series present, vertical midpoint "of the
two" series — gives y = (20+100)/2 - 10 = 50. -/
theorem tooltip_anchor_counterexample :
    einCustomPositioner stdLabels
      [⟨some 0, some 10, some 20⟩, ⟨some 0, some 12, some 40⟩, ⟨some 1, some 14, some 100⟩]
      0 0 = (some 10, some 20)
  ∧ selectAnchorSpec stdLabels
      [⟨some 0, some 10, some 20⟩, ⟨some 0, some 12, some 40⟩, ⟨some 1, some 14, some 100⟩]
      0 0 = (some 10, some 50)
  ∧ einCustomPositioner stdLabels
      [⟨some 0, some 10, some 20⟩, ⟨some 0, some 12, some 40⟩, ⟨some 1, some 14, some 100⟩]
      0 0
    ≠ selectAnchorSpec stdLabels
      [⟨some 0, some 10, some 20⟩, ⟨some 0, some 12, some 40⟩, ⟨some 1, some 14, some 100⟩]
      0 0 := by
  refine ⟨by decide, by decide, by decide⟩

/-- C5 (amended): the positioner applies, in order: (1) no active elements →
the cursor plus the fixed bias (Δx = 0, Δy = −10, applied to every returned
point); (2) the *first* element of the "Estimate" dataset, if its `x` is
defined → that element plus bias (its `y` is not checked); (3) otherwise,
with two or more percentile elements — regardless of which percentile
series they belong to — the x of the first and the vertical midpoint of the
first two, plus bias; with exactly one, that element plus bias; (4) with
none, the arithmetic mean of all active elements' coordinates plus bias. -/
theorem tooltip_anchor_rules (labels : List String) (elements : List ChartElement)
    (ex ey : ℚ) :
    (elements = [] → einCustomPositioner labels elements ex ey
        = (some (ex + 0), some (ey + (-10))))
  ∧ (∀ est, elements.find? (fun el => elementHasLabel labels el "Estimate") = some est →
        est.x.isSome = true →
        einCustomPositioner labels elements ex ey
          = (jadd est.x (some 0), jadd est.y (some (-10))))
  ∧ (elements ≠ [] →
      (elements.find? (fun el => elementHasLabel labels el "Estimate") = none
        ∨ ∃ est, elements.find? (fun el => elementHasLabel labels el "Estimate") = some est
            ∧ est.x = none) →
      ((∀ p0 p1 rest2, percentileElements labels elements = p0 :: p1 :: rest2 →
          einCustomPositioner labels elements ex ey
            = (jadd p0.x (some 0), jadd (jdivq (jadd p0.y p1.y) 2) (some (-10))))
       ∧ (∀ p0, percentileElements labels elements = [p0] →
          einCustomPositioner labels elements ex ey
            = (jadd p0.x (some 0), jadd p0.y (some (-10))))
       ∧ (percentileElements labels elements = [] →
          einCustomPositioner labels elements ex ey = centroidAnchor elements))) := by
  refine ⟨fun h => ?_, fun est hf hx => ?_, fun hne hcase => ?_⟩
  · subst h
    rfl
  · have hmem : est ∈ elements := List.mem_of_find?_eq_some hf
    have hlen : ¬(elements.length = 0) := by
      intro h0
      rw [List.length_eq_zero.mp h0] at hmem
      cases hmem
    unfold einCustomPositioner
    rw [if_neg hlen, hf]
    simp [hx]
  · have hlen : ¬(elements.length = 0) := fun h0 => hne (List.length_eq_zero.mp h0)
    have hfall : einCustomPositioner labels elements ex ey
        = einPercentileFallback labels elements := by
      unfold einCustomPositioner
      rw [if_neg hlen]
      rcases hcase with hnone | ⟨est, hsome, hx⟩
      · rw [hnone]
      · rw [hsome]
        simp [hx]
    refine ⟨fun p0 p1 rest2 hp => ?_, fun p0 hp => ?_, fun hp => ?_⟩
    · rw [hfall]
      unfold einPercentileFallback
      rw [hp]
    · rw [hfall]
      unfold einPercentileFallback
      rw [hp]
    · rw [hfall]
      unfold einPercentileFallback
      rw [hp]

/-- Instantiation of `tooltip_anchor_rules`: the empty-elements rule at the
cursor (3, 7), and rule (3) on the three-percentile-element configuration. -/
theorem tooltip_anchor_rules_witness :
    einCustomPositioner stdLabels [] 3 7 = (some (3 + 0), some (7 + (-10)))
  ∧ einCustomPositioner stdLabels
      [⟨some 0, some 10, some 20⟩, ⟨some 0, some 12, some 40⟩, ⟨some 1, some 14, some 100⟩]
      0 0
    = (jadd (some 10) (some 0), jadd (jdivq (jadd (some 20) (some 40)) 2) (some (-10))) :=
  ⟨(tooltip_anchor_rules stdLabels [] 3 7).1 rfl,
   (tooltip_anchor_rules stdLabels
      [⟨some 0, some 10, some 20⟩, ⟨some 0, some 12, some 40⟩, ⟨some 1, some 14, some 100⟩]
      0 0).2.2 (by decide) (Or.inl (by decide))
      |>.1 ⟨some 0, some 10, some 20⟩ ⟨some 0, some 12, some 40⟩
        [⟨some 1, some 14, some 100⟩] (by decide)⟩
